import Mathlib

/-!
# Verification of the danpy grid-layout and image-tiling subsystem

Shallow embedding of `src/danpy/grid_layout.py` and `src/danpy/image_tile.py`,
together with proofs settling the specification claims about them.

Modelling conventions:

* Python non-negative `int` values are modelled as `Nat`.
* `grid_layout_2d` computes its divisor-search bound as `int(count ** (1.0 / 2.0))`.
  The faithful embedding `grid_layout_2d_float` keeps that bound as an explicit
  parameter `int_sqrt`, because the float computation does not always equal
  `⌊√count⌋`: the exponent `0.5` is exact and `pow(x, 0.5)` is the correctly
  rounded square root, but the conversion of `count` to a double already rounds
  for `count ≥ 2 ^ 53` — at `count = 2 ^ 108 - 2 ^ 54` the conversion is an
  exact tie rounded half-to-even up to `2 ^ 108`, making the bound
  `int(sqrt) = 2 ^ 54 > ⌊√count⌋ = 2 ^ 54 - 1`.  For every `count < 2 ^ 52` the
  conversion and the square root are exact, so there the bound equals
  `Nat.sqrt count`; the instantiation `grid_layout_2d` below is used only at
  such counts or where the bound's value is irrelevant.
* `grid_layout_3d` computes its bound as `int(count ** (1.0 / 3.0))`.  Here the
  exponent `1.0 / 3.0` is *not* exactly `1/3`, and the resulting double can fall
  strictly below the exact cube root (for example `1000 ** (1.0 / 3.0)` evaluates
  to `9.999999999999998`, so `int` of it is `9`, not `10`).  Because the value of
  this floating-point expression is therefore not the mathematical
  `⌊count^(1/3)⌋`, we keep the bound as an explicit parameter `int_cbrt` of the
  embedding and instantiate it with the documented IEEE value where a concrete
  count is analysed.
* PIL images are modelled by their width, height, and a total pixel function
  `Nat → Nat → Color` (only the values at coordinates inside the image are ever
  used by the tiler).  `Image.new` produces a constant canvas, `paste` overwrites
  a rectangle, and `resize` is modelled as producing an image of exactly the
  requested dimensions whose pixel contents are computed by an abstract
  resampling function (PIL's `Resampling.LANCZOS`), kept as a parameter `f`.
* File I/O: `Image.open` is modelled as lookup in an ambient total map from path
  strings to images, and `combined_img.save(out_path)` as updating that map at
  `out_path`.  The pure composition core (lines 40-80 of `image_tile.py`) is
  `image_tile`; the whole Python function with its open/save is `image_tile_file`.
-/

namespace Danpy

/-! ## grid_layout.py -/

/-- The loop body shared by both layout functions:
```
root = 1
for i in range(2, bound + 1):
    if count % i == 0:
        root = i
```
`div_loop count root i k` runs the body for `i, i+1, ..., i+k-1` starting from
accumulator `root`. -/
def div_loop (count : Nat) : Nat → Nat → Nat → Nat
  | root, _, 0 => root
  | root, i, k + 1 => div_loop count (if count % i = 0 then i else root) (i + 1) k

/-- The value of `root` after `for i in range(2, bound + 1)`. -/
def div_root (count bound : Nat) : Nat :=
  div_loop count 1 2 (bound - 1)

/-- The faithful embedding of `grid_layout_2d` (grid_layout.py lines 7-24),
parametrised by the value `int_sqrt count` of the floating-point expression
`int(count ** (1.0 / 2.0))`; see the header. -/
def grid_layout_2d_float (int_sqrt : Nat → Nat) (count : Nat) : Nat × Nat :=
  let root := div_root count (int_sqrt count)
  (root, count / root)

/-- Unfolding lemma for `grid_layout_2d_float`. -/
theorem grid_layout_2d_float_def (int_sqrt : Nat → Nat) (count : Nat) :
    grid_layout_2d_float int_sqrt count =
      (div_root count (int_sqrt count), count / div_root count (int_sqrt count)) :=
  rfl

/-- `grid_layout_2d` with the bound instantiated at the exact integer square
root.  The program's float bound provably equals `⌊√count⌋` for every
`count < 2 ^ 52` (double conversion and square root are then exact) but not
universally — see the C1/C3 theorems on `grid_layout_2d_float`; every use of
this instantiation below is at such a small count, or the bound's value is
irrelevant to the stated property. -/
def grid_layout_2d (count : Nat) : Nat × Nat :=
  grid_layout_2d_float (fun c => Nat.sqrt c) count

/-- `grid_layout_3d` (grid_layout.py lines 27-46), parametrised by the value
`int_cbrt count` of the floating-point expression `int(count ** (1.0 / 3.0))`;
see the header. -/
def grid_layout_3d (int_cbrt : Nat → Nat) (count : Nat) : Nat × Nat × Nat :=
  let root := div_root count (int_cbrt count)
  let p := grid_layout_2d (count / root)
  (root, p.1, p.2)

/-- Exact integer cube root: the largest `d` with `d * d * d ≤ n` (that is, the
mathematical `⌊n^(1/3)⌋` used by the specification). -/
def icbrt (n : Nat) : Nat :=
  (List.range (n + 2)).foldl (fun best d => if d * d * d ≤ n then d else best) 0

/-- The 3D layout algorithm exactly as the specification words it: depth is the
largest divisor of `count` in `[2, ⌊count^(1/3)⌋]` (with the *exact* integer
cube root), then the remainder is split by `grid_layout_2d`. -/
def grid_layout_3d_spec (count : Nat) : Nat × Nat × Nat :=
  let root := div_root count (icbrt count)
  let p := grid_layout_2d (count / root)
  (root, p.1, p.2)

/-- Evaluation helper: `Nat.sqrt` is defined by well-founded recursion and does
not reduce definitionally, so concrete values are established through its
characterisation. -/
theorem sqrt_val (n r : Nat) (h1 : r * r ≤ n) (h2 : n < (r + 1) * (r + 1)) :
    Nat.sqrt n = r :=
  (Nat.eq_sqrt.mpr ⟨h1, h2⟩).symm

theorem div_loop_cases (count root i k : Nat) :
    div_loop count root i k = root ∨
      (i ≤ div_loop count root i k ∧ div_loop count root i k < i + k ∧
        div_loop count root i k ∣ count) := by
  induction k generalizing root i with
  | zero => exact Or.inl rfl
  | succ k ih =>
    simp only [div_loop]
    rcases ih (if count % i = 0 then i else root) (i + 1) with h | ⟨h1, h2, h3⟩
    · rw [h]
      by_cases hc : count % i = 0
      · refine Or.inr ?_
        rw [if_pos hc]
        exact ⟨Nat.le_refl i, by omega, Nat.dvd_of_mod_eq_zero hc⟩
      · rw [if_neg hc]
        exact Or.inl rfl
    · exact Or.inr ⟨by omega, by omega, h3⟩

theorem div_loop_max (count root i k d : Nat) (h2 : i ≤ d) (h3 : d < i + k)
    (hd : d ∣ count) : d ≤ div_loop count root i k := by
  induction k generalizing root i with
  | zero => omega
  | succ k ih =>
    simp only [div_loop]
    rcases Nat.eq_or_lt_of_le h2 with heq | hlt
    · subst heq
      rw [if_pos (Nat.dvd_iff_mod_eq_zero.mp hd)]
      rcases div_loop_cases count i (i + 1) k with h | ⟨h1, _, _⟩
      · omega
      · omega
    · exact ih _ (i + 1) hlt (by omega)

theorem div_root_cases (count bound : Nat) :
    div_root count bound = 1 ∨
      (2 ≤ div_root count bound ∧ div_root count bound ≤ bound ∧
        div_root count bound ∣ count) := by
  rcases div_loop_cases count 1 2 (bound - 1) with h | ⟨h1, h2, h3⟩
  · exact Or.inl h
  · exact Or.inr ⟨h1, by unfold div_root; omega, h3⟩

theorem div_root_dvd (count bound : Nat) : div_root count bound ∣ count := by
  rcases div_root_cases count bound with h | ⟨_, _, h⟩
  · rw [h]; exact Nat.one_dvd count
  · exact h

theorem div_root_pos (count bound : Nat) : 1 ≤ div_root count bound := by
  rcases div_root_cases count bound with h | ⟨h, _, _⟩ <;> omega

theorem div_root_max (count bound d : Nat) (h2 : 2 ≤ d) (h3 : d ≤ bound)
    (hd : d ∣ count) : d ≤ div_root count bound :=
  div_loop_max count 1 2 (bound - 1) d h2 (by omega) hd

/-- Evaluation helper for `grid_layout_2d` at concrete inputs (supplying the
square root explicitly, since `Nat.sqrt` does not reduce definitionally). -/
theorem grid_layout_2d_eval (count r : Nat) (h : Nat.sqrt count = r) (p q : Nat)
    (h2 : (div_root count r, count / div_root count r) = (p, q)) :
    grid_layout_2d count = (p, q) := by
  show (div_root count (Nat.sqrt count), count / div_root count (Nat.sqrt count)) = (p, q)
  rw [h]
  exact h2

/-- Evaluation helper for `grid_layout_3d` at concrete inputs. -/
theorem grid_layout_3d_eval (f : Nat → Nat) (count d p q : Nat)
    (h1 : div_root count (f count) = d) (h2 : grid_layout_2d (count / d) = (p, q)) :
    grid_layout_3d f count = (d, p, q) := by
  show (div_root count (f count), (grid_layout_2d (count / div_root count (f count))).1,
    (grid_layout_2d (count / div_root count (f count))).2) = (d, p, q)
  rw [h1, h2]

/-- The product guarantee of the layout loop is independent of the bound: the
result is `(root, count / root)` with `root ∣ count`, whatever value the
floating-point bound takes. -/
theorem grid_layout_2d_float_mul (int_sqrt : Nat → Nat) (count : Nat) :
    (grid_layout_2d_float int_sqrt count).1 * (grid_layout_2d_float int_sqrt count).2 =
      count :=
  Nat.mul_div_cancel' (div_root_dvd count (int_sqrt count))

theorem grid_layout_2d_mul (count : Nat) :
    (grid_layout_2d count).1 * (grid_layout_2d count).2 = count :=
  grid_layout_2d_float_mul (fun c => Nat.sqrt c) count

/-- `rows ≤ cols` holds whenever the floating-point bound does not exceed the
exact `⌊√count⌋` (in particular for every `count < 2 ^ 52`, where the bound
equals it); the C1 theorem below shows it fails when the bound overshoots. -/
theorem grid_layout_2d_float_le (int_sqrt : Nat → Nat) (count : Nat) (h : 1 ≤ count)
    (hb : int_sqrt count ≤ Nat.sqrt count) :
    (grid_layout_2d_float int_sqrt count).1 ≤ (grid_layout_2d_float int_sqrt count).2 := by
  show div_root count (int_sqrt count) ≤ count / div_root count (int_sqrt count)
  rcases div_root_cases count (int_sqrt count) with he | ⟨h1, h2, h3⟩
  · rw [he, Nat.div_one]; exact h
  · rw [Nat.le_div_iff_mul_le (by omega)]
    exact Nat.le_sqrt.mp (Nat.le_trans h2 hb)

/-- At `count = 2 ^ 108 - 2 ^ 54 = 2 ^ 54 * (2 ^ 54 - 1)` the program's bound is
`2 ^ 54` (see the C1 theorem), and the loop's result is then `2 ^ 54` itself:
it divides `count` and is the top of the search range. -/
theorem div_root_pow_tie : div_root (2 ^ 108 - 2 ^ 54) (2 ^ 54) = (2 ^ 54 : Nat) := by
  have hdvd : (2 ^ 54 : Nat) ∣ (2 ^ 108 - 2 ^ 54) := ⟨2 ^ 54 - 1, by norm_num⟩
  have hmax : (2 ^ 54 : Nat) ≤ div_root (2 ^ 108 - 2 ^ 54) (2 ^ 54) :=
    div_root_max _ _ _ (by norm_num) (Nat.le_refl _) hdvd
  rcases div_root_cases (2 ^ 108 - 2 ^ 54) (2 ^ 54) with h1 | ⟨_, hle, _⟩
  · rw [h1] at hmax
    exact absurd hmax (by norm_num)
  · exact Nat.le_antisymm hle hmax

/-- **C1 (code bug).** The code's bound is `int(count ** (1.0 / 2.0))`.  At
`count = 2 ^ 108 - 2 ^ 54`, converting `count` to a double is an exact tie
between `2 ^ 108 - 2 ^ 55` and `2 ^ 108`, rounded half-to-even up to `2 ^ 108`
(whose mantissa is even); `pow(2 ^ 108, 0.5) = 2 ^ 54` exactly, so the bound is
`2 ^ 54`, which divides `count`.  The program therefore returns
`(2 ^ 54, 2 ^ 54 - 1)`: `rows * cols = count` still holds, but `rows > cols`,
violating the claim (the exact `⌊√count⌋` is `2 ^ 54 - 1`, so the spec's answer
is the swapped pair `(2 ^ 54 - 1, 2 ^ 54)`). -/
theorem grid_layout_2d_float_sqrt_order_violation :
    grid_layout_2d_float (fun _ => 2 ^ 54) (2 ^ 108 - 2 ^ 54) = (2 ^ 54, 2 ^ 54 - 1) ∧
    Nat.sqrt (2 ^ 108 - 2 ^ 54) = 2 ^ 54 - 1 ∧
    ¬ ((grid_layout_2d_float (fun _ => 2 ^ 54) (2 ^ 108 - 2 ^ 54)).1 ≤
        (grid_layout_2d_float (fun _ => 2 ^ 54) (2 ^ 108 - 2 ^ 54)).2) ∧
    (grid_layout_2d_float (fun _ => 2 ^ 54) (2 ^ 108 - 2 ^ 54)).1 *
      (grid_layout_2d_float (fun _ => 2 ^ 54) (2 ^ 108 - 2 ^ 54)).2 =
      2 ^ 108 - 2 ^ 54 := by
  have hdiv : (2 ^ 108 - 2 ^ 54) / 2 ^ 54 = (2 : Nat) ^ 54 - 1 := by norm_num
  have hpair : grid_layout_2d_float (fun _ => 2 ^ 54) (2 ^ 108 - 2 ^ 54) =
      ((2 : Nat) ^ 54, 2 ^ 54 - 1) := by
    rw [grid_layout_2d_float_def, div_root_pow_tie, hdiv]
  refine ⟨hpair, sqrt_val _ _ (by norm_num) (by norm_num), ?_, ?_⟩
  · rw [hpair]
    show ¬ ((2 : Nat) ^ 54 ≤ 2 ^ 54 - 1)
    norm_num
  · rw [hpair]
    show (2 : Nat) ^ 54 * (2 ^ 54 - 1) = 2 ^ 108 - 2 ^ 54
    norm_num

/-- **C3 (code bug).** Same failing input as C1: the program's first component
is `2 ^ 54`, which is neither `1` nor a divisor within `[2, ⌊√count⌋]` (the
exact `⌊√count⌋` is `2 ^ 54 - 1`), because the floating-point bound `2 ^ 54`
overshoots `⌊√count⌋`.  The claim's characterisation as the largest divisor in
`[2, ⌊√count⌋]` therefore fails on the code; relative to the code's own bound
`B`, the loop result is the largest divisor in `[2, B]` (see `div_root_cases`
and `div_root_max`). -/
theorem grid_layout_2d_float_sqrt_divisor_violation :
    (grid_layout_2d_float (fun _ => 2 ^ 54) (2 ^ 108 - 2 ^ 54)).1 = 2 ^ 54 ∧
    Nat.sqrt (2 ^ 108 - 2 ^ 54) = 2 ^ 54 - 1 ∧
    ¬ ((grid_layout_2d_float (fun _ => 2 ^ 54) (2 ^ 108 - 2 ^ 54)).1 = 1 ∨
        (2 ≤ (grid_layout_2d_float (fun _ => 2 ^ 54) (2 ^ 108 - 2 ^ 54)).1 ∧
         (grid_layout_2d_float (fun _ => 2 ^ 54) (2 ^ 108 - 2 ^ 54)).1 ≤
           Nat.sqrt (2 ^ 108 - 2 ^ 54) ∧
         (grid_layout_2d_float (fun _ => 2 ^ 54) (2 ^ 108 - 2 ^ 54)).1 ∣
           (2 ^ 108 - 2 ^ 54))) := by
  have hfst : (grid_layout_2d_float (fun _ => 2 ^ 54) (2 ^ 108 - 2 ^ 54)).1 =
      (2 : Nat) ^ 54 := by
    rw [grid_layout_2d_float_def, div_root_pow_tie]
  have hsqrt : Nat.sqrt (2 ^ 108 - 2 ^ 54) = 2 ^ 54 - 1 :=
    sqrt_val _ _ (by norm_num) (by norm_num)
  refine ⟨hfst, hsqrt, ?_⟩
  rintro (h1 | ⟨_, hle, _⟩)
  · rw [hfst] at h1
    exact absurd h1 (by norm_num)
  · rw [hfst, hsqrt] at hle
    exact absurd hle (by norm_num)

set_option maxRecDepth 100000 in
/-- **C4 (code bug).** The code computes its depth bound as
`int(count ** (1.0 / 3.0))`; in IEEE double arithmetic
`1000 ** (1.0 / 3.0) = 9.999999999999998`, so the bound at `count = 1000` is `9`
and the code returns `(8, 5, 25)`.  The claim's algorithm uses the exact
`⌊1000^(1/3)⌋ = 10` and yields `(10, 10, 10)`.  The same underestimate happens at
every perfect cube from `64` upwards (`64 ** (1.0/3.0) = 3.9999999999999996`,
etc.), contradicting the function's own docstring ("closest to a cube"). -/
theorem grid_layout_3d_float_cbrt_divergence :
    grid_layout_3d (fun _ => 9) 1000 = (8, 5, 25) ∧
    icbrt 1000 = 10 ∧
    grid_layout_3d_spec 1000 = (10, 10, 10) ∧
    grid_layout_3d (fun _ => 9) 1000 ≠ grid_layout_3d_spec 1000 := by
  have h125 : grid_layout_2d 125 = (5, 25) :=
    grid_layout_2d_eval 125 11 (sqrt_val 125 11 (by decide) (by decide)) 5 25 (by decide)
  have h100 : grid_layout_2d 100 = (10, 10) :=
    grid_layout_2d_eval 100 10 (sqrt_val 100 10 (by decide) (by decide)) 10 10 (by decide)
  have hcode : grid_layout_3d (fun _ => 9) 1000 = (8, 5, 25) :=
    grid_layout_3d_eval (fun _ => 9) 1000 8 5 25 (by decide) h125
  have hspec : grid_layout_3d_spec 1000 = (10, 10, 10) :=
    grid_layout_3d_eval icbrt 1000 10 10 10 (by decide) h100
  refine ⟨hcode, by decide, hspec, ?_⟩
  rw [hcode, hspec]
  decide

/-- **C10.** For `count = 0` (outside the documented domain) the divisor-search
range `range(2, int(0 ** 0.5) + 1)` is empty, so the default `root = 1` is kept
and `grid_layout_2d 0 = (1, 0)`: the second component is `0`, violating the
positive-integers invariant of `GridShape2D`. -/
theorem grid_layout_2d_zero :
    grid_layout_2d 0 = (1, 0) ∧ ¬ 0 < (grid_layout_2d 0).2 := by
  have h : grid_layout_2d 0 = (1, 0) :=
    grid_layout_2d_eval 0 0 (sqrt_val 0 0 (by decide) (by decide)) 1 0 (by decide)
  exact ⟨h, by rw [h]; decide⟩

/-! ## image_tile.py -/

/-- A loaded raster image (PIL `Image`): width and height in pixels plus a pixel
buffer, modelled as a total function on coordinates `(x, y)`; only values at
coordinates inside the image are ever consumed by the tiler. -/
structure Image (Color : Type) where
  width : Nat
  height : Nat
  pix : Nat → Nat → Color

variable {Color : Type}

/-- `PIL.Image.new("RGB", (w, h), background)`: a canvas filled with the
background color. -/
def Image.new (w h : Nat) (bg : Color) : Image Color :=
  ⟨w, h, fun _ _ => bg⟩

/-- `canvas.paste(img, (x, y))`: overwrite the rectangle of `img`'s size at
offset `(x, y)` with `img`'s pixels (the tiler only ever pastes inside the
canvas, so border clipping never triggers and is not modelled). -/
def Image.paste (canvas img : Image Color) (x y : Nat) : Image Color :=
  ⟨canvas.width, canvas.height, fun a b =>
    if x ≤ a ∧ a < x + img.width ∧ y ≤ b ∧ b < y + img.height then
      img.pix (a - x) (b - y)
    else canvas.pix a b⟩

/-- `img.resize(resolution, Resampling.LANCZOS)`: PIL returns an image of
exactly the requested size; the Lanczos-resampled pixel values are abstracted
as the function `f` (a parameter of the whole tiler embedding). -/
def Image.resize (img : Image Color) (w h : Nat)
    (f : Image Color → Nat × Nat → Nat → Nat → Color) : Image Color :=
  ⟨w, h, f img (w, h)⟩

/-- The inner loop of the widths pass
(`for col in range(len(in_paths[row])): widths[col] = max(widths[col], image.width)`):
update the accumulator list `ws` with one row. -/
def upd_widths : List Nat → List (Image Color) → List Nat
  | ws, [] => ws
  | [], _ => []
  | w :: ws, img :: row => max w img.width :: upd_widths ws row

/-- image_tile.py lines 51-56: `widths = [0] * ncols` then the per-row update
loop. -/
def col_widths (images : List (List (Image Color))) (ncols : Nat) : List Nat :=
  images.foldl upd_widths (List.replicate ncols 0)

/-- image_tile.py lines 58-63: `heights[row] = max(heights[row], image.height)`,
starting from `0`, equals a per-row maximum fold. -/
def row_height (row : List (Image Color)) : Nat :=
  row.foldl (fun h img => max h img.height) 0

/-- `heights` as a list indexed by row. -/
def row_heights (images : List (List (Image Color))) : List Nat :=
  images.map row_height

/-- `ncols`: the running maximum of the row lengths (image_tile.py lines 41-49). -/
def num_cols (images : List (List (Image Color))) : Nat :=
  images.foldl (fun n row => max n row.length) 0

/-- The column-widths list of the tiler for a given grid. -/
def tile_widths (images : List (List (Image Color))) : List Nat :=
  col_widths images (num_cols images)

/-- `x = sum(widths[:col])`: the horizontal paste offset of column `c`. -/
def x_off (images : List (List (Image Color))) (c : Nat) : Nat :=
  ((tile_widths images).take c).sum

/-- `y = sum(heights[:row])`: the vertical paste offset of row `r`. -/
def y_off (images : List (List (Image Color))) (r : Nat) : Nat :=
  ((row_heights images).take r).sum

/-- The inner paste loop `for col, img in enumerate(images[row])`, with `c` the
current column index and `y` the row's vertical offset. -/
def paste_cols (widths : List Nat) (y : Nat) : Nat → Image Color → List (Image Color) → Image Color
  | _, canvas, [] => canvas
  | c, canvas, img :: rest =>
      paste_cols widths y (c + 1) (canvas.paste img ((widths.take c).sum) y) rest

/-- The outer paste loop `for row in range(nrows)`, with `r` the current row
index. -/
def paste_rows (widths heights : List Nat) : Nat → Image Color → List (List (Image Color)) → Image Color
  | _, canvas, [] => canvas
  | r, canvas, row :: rest =>
      paste_rows widths heights (r + 1)
        (paste_cols widths ((heights.take r).sum) 0 canvas row) rest

/-- The specification's per-column width: the maximum width among the images
present at column index `c` across all rows (rows shorter than `c` contribute
nothing), starting from `0`. -/
def col_width (images : List (List (Image Color))) (c : Nat) : Nat :=
  (images.filterMap (fun row => row[c]?)).foldl (fun m img => max m img.width) 0

/-- The composition core of `image_tile` (image_tile.py lines 40-80), taking the
already-loaded ragged grid of images.  `f` abstracts the Lanczos resampler; see
the header.  The function's file I/O (`Image.open` / `save`) is modelled
separately by `image_tile_file`. -/
def image_tile (f : Image Color → Nat × Nat → Nat → Nat → Color)
    (images : List (List (Image Color))) (resolution : Option (Nat × Nat))
    (background : Color) : Image Color :=
  let widths := tile_widths images
  let heights := row_heights images
  let width := widths.sum
  let height := heights.sum
  let combined := Image.new width height background
  let combined := paste_rows widths heights 0 combined images
  match resolution with
  | some (w, h) => combined.resize w h f
  | none => combined

/-- The whole Python `image_tile(in_paths, out_path, resolution, background)`:
`Image.open(path)` is modelled as lookup in the ambient filesystem `fs` (a total
map from path strings to decoded images), and `combined_img.save(out_path)` as
updating `fs` at `out_path`.  The Python function returns `None`; its entire
observable result is this filesystem update. -/
def image_tile_file (f : Image Color → Nat × Nat → Nat → Nat → Color)
    (in_paths : List (List String)) (out_path : String)
    (resolution : Option (Nat × Nat)) (background : Color)
    (fs : String → Image Color) : String → Image Color :=
  let images := in_paths.map (fun row => row.map fs)
  let combined := image_tile f images resolution background
  fun p => if p = out_path then combined else fs p

/-- The inner distribution loop of `image_tile_auto` (image_tile.py lines
115-121): `for _col in range(cols): if idx < len(paths): row.append(paths[idx]);
idx += 1`.  `k` counts the remaining iterations. -/
def fill_row (paths : List (Image Color)) (idx : Nat) : Nat → List (Image Color)
  | 0 => []
  | k + 1 =>
      match paths[idx]? with
      | some p => p :: fill_row paths (idx + 1) k
      | none => fill_row paths (idx + 1) k

/-- The outer distribution loop `for _row in range(layout[0])`; `idx` advances
by `cols` per row whether or not items were appended. -/
def fill_rows (paths : List (Image Color)) (cols : Nat) : Nat → Nat → List (List (Image Color))
  | _, 0 => []
  | idx, k + 1 => fill_row paths idx cols :: fill_rows paths cols (idx + cols) k

/-- `image_tile_auto` (image_tile.py lines 85-128): choose the layout (the given
one, or `grid_layout_2d(len(paths))` — Python's `layout or ...` falls through
exactly when `layout` is `None`), distribute the items row-major, and delegate
to `image_tile`. -/
def image_tile_auto (f : Image Color → Nat × Nat → Nat → Nat → Color)
    (paths : List (Image Color)) (layout : Option (Nat × Nat))
    (resolution : Option (Nat × Nat)) (background : Color) : Image Color :=
  let l := layout.getD (grid_layout_2d paths.length)
  image_tile f (fill_rows paths l.2 0 l.1) resolution background

/-! ### Width/height bookkeeping lemmas -/

theorem le_foldl_max {α : Type} (f : α → Nat) (m0 : Nat) (l : List α) :
    m0 ≤ l.foldl (fun m y => max m (f y)) m0 := by
  induction l generalizing m0 with
  | nil => exact Nat.le_refl m0
  | cons x xs ih => exact Nat.le_trans (Nat.le_max_left m0 (f x)) (ih (max m0 (f x)))

theorem foldl_max_of_mem {α : Type} (f : α → Nat) {x : α} {l : List α}
    (hx : x ∈ l) : ∀ m0 : Nat, f x ≤ l.foldl (fun m y => max m (f y)) m0 := by
  induction hx with
  | head ys =>
    intro m0
    exact Nat.le_trans (Nat.le_max_right m0 (f x)) (le_foldl_max f (max m0 (f x)) ys)
  | tail y hmem ih =>
    intro m0
    exact ih (max m0 (f y))

theorem upd_widths_getElem? (ws : List Nat) (row : List (Image Color)) (c : Nat) :
    (upd_widths ws row)[c]? =
      (ws[c]?).map (fun w =>
        match row[c]? with
        | some img => max w img.width
        | none => w) := by
  induction ws generalizing row c with
  | nil => cases row <;> simp [upd_widths]
  | cons w ws ih =>
    cases row with
    | nil => simp [upd_widths]
    | cons img row =>
      cases c with
      | zero => simp [upd_widths]
      | succ c => simpa [upd_widths] using ih row c

theorem foldl_upd_widths_getElem? (images : List (List (Image Color)))
    (init : List Nat) (c : Nat) :
    (images.foldl upd_widths init)[c]? =
      (init[c]?).map (fun w =>
        (images.filterMap (fun row => row[c]?)).foldl
          (fun m img => max m img.width) w) := by
  induction images generalizing init with
  | nil =>
    simp only [List.foldl_nil, List.filterMap_nil]
    cases init[c]? <;> rfl
  | cons row rest ih =>
    rw [List.foldl_cons, ih (upd_widths init row), upd_widths_getElem?,
      Option.map_map]
    cases h : row[c]? with
    | some img =>
      simp only [List.filterMap_cons, h]
      exact congrArg (fun g => Option.map g init[c]?) (funext fun w => rfl)
    | none =>
      simp only [List.filterMap_cons, h]
      exact congrArg (fun g => Option.map g init[c]?) (funext fun w => rfl)

theorem col_widths_eq_map (images : List (List (Image Color))) (ncols : Nat) :
    col_widths images ncols = (List.range ncols).map (fun c => col_width images c) := by
  apply List.ext_getElem?
  intro c
  by_cases h : c < ncols
  · simp [col_widths, foldl_upd_widths_getElem?, h, col_width]
  · rw [col_widths, foldl_upd_widths_getElem?,
      List.getElem?_eq_none (by simp; omega),
      List.getElem?_eq_none (by simp; omega)]
    rfl

theorem paste_cols_width (widths : List Nat) (y c : Nat) (cv : Image Color)
    (row : List (Image Color)) :
    (paste_cols widths y c cv row).width = cv.width ∧
    (paste_cols widths y c cv row).height = cv.height := by
  induction row generalizing c cv with
  | nil => exact ⟨rfl, rfl⟩
  | cons img rest ih => exact ih (c + 1) _

theorem paste_rows_width (widths heights : List Nat) (r : Nat) (cv : Image Color)
    (images : List (List (Image Color))) :
    (paste_rows widths heights r cv images).width = cv.width ∧
    (paste_rows widths heights r cv images).height = cv.height := by
  induction images generalizing r cv with
  | nil => exact ⟨rfl, rfl⟩
  | cons row rest ih =>
    refine ⟨?_, ?_⟩
    · rw [paste_rows, (ih (r + 1) _).1, (paste_cols_width _ _ _ _ _).1]
    · rw [paste_rows, (ih (r + 1) _).2, (paste_cols_width _ _ _ _ _).2]

/-- **C2.** Without a resolution argument the canvas dimensions are the sum over
column indices of the per-column maximum width (`col_width`) and the sum over
rows of the per-row maximum height (`row_height`); with `resolution = (w, h)`
the output dimensions are exactly `(w, h)`. -/
theorem image_tile_dimensions (f : Image Color → Nat × Nat → Nat → Nat → Color)
    (images : List (List (Image Color))) (background : Color) (w h : Nat)
    (hne : images ≠ []) :
    (image_tile f images none background).width =
      ((List.range (num_cols images)).map (fun c => col_width images c)).sum ∧
    (image_tile f images none background).height = (images.map row_height).sum ∧
    (image_tile f images (some (w, h)) background).width = w ∧
    (image_tile f images (some (w, h)) background).height = h := by
  refine ⟨?_, ?_, rfl, rfl⟩
  · show (paste_rows (tile_widths images) (row_heights images) 0
      (Image.new (tile_widths images).sum (row_heights images).sum background)
      images).width = _
    rw [(paste_rows_width _ _ _ _ _).1]
    show (tile_widths images).sum = _
    rw [tile_widths, col_widths_eq_map]
  · show (paste_rows (tile_widths images) (row_heights images) 0
      (Image.new (tile_widths images).sum (row_heights images).sum background)
      images).height = _
    rw [(paste_rows_width _ _ _ _ _).2]
    rfl

theorem image_tile_dimensions_witness :
    (([[Image.mk 2 3 (fun _ _ => (5 : Nat))]] : List (List (Image Nat))) ≠ []) ∧
    (image_tile (fun _ _ _ _ => 0) [[Image.mk 2 3 (fun _ _ => 5)]] none 0).width =
      ((List.range (num_cols [[Image.mk 2 3 (fun _ _ => (5 : Nat))]])).map
        (fun c => col_width [[Image.mk 2 3 (fun _ _ => (5 : Nat))]] c)).sum ∧
    (image_tile (fun _ _ _ _ => 0) [[Image.mk 2 3 (fun _ _ => 5)]] none 0).height =
      ([[Image.mk 2 3 (fun _ _ => (5 : Nat))]].map row_height).sum ∧
    (image_tile (fun _ _ _ _ => 0) [[Image.mk 2 3 (fun _ _ => 5)]] (some (7, 9)) 0).width = 7 ∧
    (image_tile (fun _ _ _ _ => 0) [[Image.mk 2 3 (fun _ _ => 5)]] (some (7, 9)) 0).height = 9 :=
  ⟨by simp,
    image_tile_dimensions (fun _ _ _ _ => 0) [[Image.mk 2 3 (fun _ _ => 5)]] 0 7 9
      (by simp)⟩

/-! ### Paste placement lemmas -/

theorem sum_take_le_succ (L : List Nat) (c : Nat) :
    (L.take c).sum ≤ (L.take (c + 1)).sum := by
  by_cases h : c < L.length
  · rw [List.sum_take_succ L c h]
    exact Nat.le_add_right _ _
  · rw [List.take_of_length_le (by omega), List.take_of_length_le (by omega)]

theorem sum_take_mono (L : List Nat) (c c' : Nat) (h : c ≤ c') :
    (L.take c).sum ≤ (L.take c').sum := by
  induction c' with
  | zero =>
    have hc : c = 0 := by omega
    subst hc
    exact Nat.le_refl _
  | succ c' ih =>
    rcases Nat.eq_or_lt_of_le h with rfl | hlt
    · exact Nat.le_refl _
    · exact Nat.le_trans (ih (by omega)) (sum_take_le_succ L c')

/-- Two pasted intervals in the same axis cannot overlap: if `j < c`, then any
point strictly inside the interval of slot `j` (whose extent is at most `L[j]`)
lies strictly before the start of slot `c`. -/
theorem interval_sep (L : List Nat) (j c wj a : Nat) (hjc : j < c)
    (hj : j < L.length) (hwj : wj ≤ L[j]) (ha : a < (L.take j).sum + wj) :
    a < (L.take c).sum := by
  have h1 : (L.take (j + 1)).sum = (L.take j).sum + L[j] := List.sum_take_succ L j hj
  have h2 : (L.take (j + 1)).sum ≤ (L.take c).sum := sum_take_mono L (j + 1) c hjc
  omega

theorem width_le_col_width (images : List (List (Image Color))) (i j : Nat)
    (hi : i < images.length) (hj : j < images[i].length) :
    images[i][j].width ≤ col_width images j := by
  refine foldl_max_of_mem Image.width ?_ 0
  refine List.mem_filterMap.mpr ⟨images[i], List.getElem_mem hi, ?_⟩
  rw [List.getElem?_eq_getElem hj]

theorem height_le_row_height (images : List (List (Image Color))) (i j : Nat)
    (hi : i < images.length) (hj : j < images[i].length) :
    images[i][j].height ≤ row_height images[i] :=
  foldl_max_of_mem Image.height (List.getElem_mem hj) 0

theorem row_length_le_num_cols (images : List (List (Image Color))) (i : Nat)
    (hi : i < images.length) : images[i].length ≤ num_cols images :=
  foldl_max_of_mem List.length (List.getElem_mem hi) 0

theorem tile_widths_length (images : List (List (Image Color))) :
    (tile_widths images).length = num_cols images := by
  rw [tile_widths, col_widths_eq_map]
  simp

theorem tile_widths_getElem (images : List (List (Image Color))) (c : Nat)
    (hc : c < (tile_widths images).length) :
    (tile_widths images)[c] = col_width images c := by
  have h : c < num_cols images := by rwa [tile_widths_length] at hc
  simp [tile_widths, col_widths_eq_map]

theorem paste_cols_pix_untouched (widths : List Nat) (y c0 a b : Nat)
    (cv : Image Color) (row : List (Image Color))
    (h : ∀ j, (hj : j < row.length) →
      ¬ ((widths.take (c0 + j)).sum ≤ a ∧
         a < (widths.take (c0 + j)).sum + row[j].width ∧
         y ≤ b ∧ b < y + row[j].height)) :
    (paste_cols widths y c0 cv row).pix a b = cv.pix a b := by
  induction row generalizing c0 cv with
  | nil => rfl
  | cons img rest ih =>
    simp only [paste_cols]
    have hrest : ∀ j, (hj : j < rest.length) →
        ¬ ((widths.take (c0 + 1 + j)).sum ≤ a ∧
           a < (widths.take (c0 + 1 + j)).sum + rest[j].width ∧
           y ≤ b ∧ b < y + rest[j].height) := by
      intro j hj
      have hh := h (j + 1) (by simpa using Nat.succ_lt_succ hj)
      rw [show c0 + (j + 1) = c0 + 1 + j by omega] at hh
      simpa using hh
    rw [ih (c0 + 1) _ hrest]
    have h0 := h 0 (by simp)
    simp only [List.getElem_cons_zero, Nat.add_zero] at h0
    show (if (widths.take c0).sum ≤ a ∧ a < (widths.take c0).sum + img.width ∧
        y ≤ b ∧ b < y + img.height then img.pix (a - (widths.take c0).sum) (b - y)
      else cv.pix a b) = cv.pix a b
    rw [if_neg h0]

theorem paste_cols_pix_hit (widths : List Nat) (y c0 a b : Nat)
    (cv : Image Color) (row : List (Image Color)) (j0 : Nat) (hj0 : j0 < row.length)
    (hcov : (widths.take (c0 + j0)).sum ≤ a ∧
      a < (widths.take (c0 + j0)).sum + row[j0].width ∧
      y ≤ b ∧ b < y + row[j0].height)
    (hoth : ∀ j, (hj : j < row.length) → j ≠ j0 →
      ¬ ((widths.take (c0 + j)).sum ≤ a ∧
         a < (widths.take (c0 + j)).sum + row[j].width ∧
         y ≤ b ∧ b < y + row[j].height)) :
    (paste_cols widths y c0 cv row).pix a b =
      row[j0].pix (a - (widths.take (c0 + j0)).sum) (b - y) := by
  induction row generalizing c0 cv j0 with
  | nil => exact absurd hj0 (by simp)
  | cons img rest ih =>
    simp only [paste_cols]
    cases j0 with
    | zero =>
      have hrest : ∀ j, (hj : j < rest.length) →
          ¬ ((widths.take (c0 + 1 + j)).sum ≤ a ∧
             a < (widths.take (c0 + 1 + j)).sum + rest[j].width ∧
             y ≤ b ∧ b < y + rest[j].height) := by
        intro j hj
        have hh := hoth (j + 1) (by simpa using Nat.succ_lt_succ hj) (by omega)
        rw [show c0 + (j + 1) = c0 + 1 + j by omega] at hh
        simpa using hh
      rw [paste_cols_pix_untouched widths y (c0 + 1) a b _ rest hrest]
      simp only [List.getElem_cons_zero, Nat.add_zero] at hcov ⊢
      show (if (widths.take c0).sum ≤ a ∧ a < (widths.take c0).sum + img.width ∧
          y ≤ b ∧ b < y + img.height then img.pix (a - (widths.take c0).sum) (b - y)
        else cv.pix a b) = img.pix (a - (widths.take c0).sum) (b - y)
      rw [if_pos hcov]
    | succ j0 =>
      have hj0' : j0 < rest.length := Nat.lt_of_succ_lt_succ hj0
      have hcov' : (widths.take (c0 + 1 + j0)).sum ≤ a ∧
          a < (widths.take (c0 + 1 + j0)).sum + rest[j0].width ∧
          y ≤ b ∧ b < y + rest[j0].height := by
        rw [show c0 + 1 + j0 = c0 + (j0 + 1) by omega]
        simpa using hcov
      have hoth' : ∀ j, (hj : j < rest.length) → j ≠ j0 →
          ¬ ((widths.take (c0 + 1 + j)).sum ≤ a ∧
             a < (widths.take (c0 + 1 + j)).sum + rest[j].width ∧
             y ≤ b ∧ b < y + rest[j].height) := by
        intro j hj hne
        have hh := hoth (j + 1) (by simpa using Nat.succ_lt_succ hj) (by omega)
        rw [show c0 + (j + 1) = c0 + 1 + j by omega] at hh
        simpa using hh
      have := ih (c0 + 1) (cv.paste img ((widths.take c0).sum) y) j0 hj0' hcov' hoth'
      rw [this]
      simp only [List.getElem_cons_succ]
      rw [show c0 + 1 + j0 = c0 + (j0 + 1) by omega]

theorem paste_rows_pix_untouched (widths heights : List Nat) (r0 a b : Nat)
    (cv : Image Color) (rows : List (List (Image Color)))
    (h : ∀ i, (hi : i < rows.length) → ∀ j, (hj : j < rows[i].length) →
      ¬ ((widths.take j).sum ≤ a ∧ a < (widths.take j).sum + rows[i][j].width ∧
         (heights.take (r0 + i)).sum ≤ b ∧
         b < (heights.take (r0 + i)).sum + rows[i][j].height)) :
    (paste_rows widths heights r0 cv rows).pix a b = cv.pix a b := by
  induction rows generalizing r0 cv with
  | nil => rfl
  | cons row rest ih =>
    simp only [paste_rows]
    have hrest : ∀ i, (hi : i < rest.length) → ∀ j, (hj : j < rest[i].length) →
        ¬ ((widths.take j).sum ≤ a ∧ a < (widths.take j).sum + rest[i][j].width ∧
           (heights.take (r0 + 1 + i)).sum ≤ b ∧
           b < (heights.take (r0 + 1 + i)).sum + rest[i][j].height) := by
      intro i hi j hj
      have hh := h (i + 1) (by simpa using Nat.succ_lt_succ hi) j (by simpa using hj)
      rw [show r0 + (i + 1) = r0 + 1 + i by omega] at hh
      simpa using hh
    rw [ih (r0 + 1) _ hrest]
    refine paste_cols_pix_untouched widths ((heights.take r0).sum) 0 a b cv row ?_
    intro j hj
    have hh := h 0 (by simp) j (by simpa using hj)
    simpa using hh

theorem paste_rows_pix_hit (widths heights : List Nat) (r0 a b : Nat)
    (cv : Image Color) (rows : List (List (Image Color))) (i0 j0 : Nat)
    (hi0 : i0 < rows.length) (hj0 : j0 < rows[i0].length)
    (hcov : (widths.take j0).sum ≤ a ∧
      a < (widths.take j0).sum + rows[i0][j0].width ∧
      (heights.take (r0 + i0)).sum ≤ b ∧
      b < (heights.take (r0 + i0)).sum + rows[i0][j0].height)
    (hoth : ∀ i, (hi : i < rows.length) → ∀ j, (hj : j < rows[i].length) →
      ¬ (i = i0 ∧ j = j0) →
      ¬ ((widths.take j).sum ≤ a ∧ a < (widths.take j).sum + rows[i][j].width ∧
         (heights.take (r0 + i)).sum ≤ b ∧
         b < (heights.take (r0 + i)).sum + rows[i][j].height)) :
    (paste_rows widths heights r0 cv rows).pix a b =
      rows[i0][j0].pix (a - (widths.take j0).sum)
        (b - (heights.take (r0 + i0)).sum) := by
  induction rows generalizing r0 cv i0 with
  | nil => exact absurd hi0 (by simp)
  | cons row rest ih =>
    simp only [paste_rows]
    cases i0 with
    | zero =>
      have hrest : ∀ i, (hi : i < rest.length) → ∀ j, (hj : j < rest[i].length) →
          ¬ ((widths.take j).sum ≤ a ∧ a < (widths.take j).sum + rest[i][j].width ∧
             (heights.take (r0 + 1 + i)).sum ≤ b ∧
             b < (heights.take (r0 + 1 + i)).sum + rest[i][j].height) := by
        intro i hi j hj
        have hh := hoth (i + 1) (by simpa using Nat.succ_lt_succ hi) j
          (by simpa using hj) (by omega)
        rw [show r0 + (i + 1) = r0 + 1 + i by omega] at hh
        simpa using hh
      rw [paste_rows_pix_untouched widths heights (r0 + 1) a b _ rest hrest]
      simp only [List.getElem_cons_zero, Nat.add_zero] at hcov hj0 ⊢
      have hoth2 : ∀ j, (hj : j < row.length) → j ≠ j0 →
          ¬ ((widths.take (0 + j)).sum ≤ a ∧
             a < (widths.take (0 + j)).sum + row[j].width ∧
             (heights.take r0).sum ≤ b ∧
             b < (heights.take r0).sum + row[j].height) := by
        intro j hj hne
        have hh := hoth 0 (by simp) j (by simpa using hj) (by omega)
        simpa using hh
      have h2 := paste_cols_pix_hit widths ((heights.take r0).sum) 0 a b cv row j0
        hj0 (by simpa using hcov) hoth2
      simpa using h2
    | succ i0 =>
      have hi0' : i0 < rest.length := Nat.lt_of_succ_lt_succ hi0
      have hj0' : j0 < rest[i0].length := by simpa using hj0
      have hcov' : (widths.take j0).sum ≤ a ∧
          a < (widths.take j0).sum + rest[i0][j0].width ∧
          (heights.take (r0 + 1 + i0)).sum ≤ b ∧
          b < (heights.take (r0 + 1 + i0)).sum + rest[i0][j0].height := by
        rw [show r0 + 1 + i0 = r0 + (i0 + 1) by omega]
        simpa using hcov
      have hoth' : ∀ i, (hi : i < rest.length) → ∀ j, (hj : j < rest[i].length) →
          ¬ (i = i0 ∧ j = j0) →
          ¬ ((widths.take j).sum ≤ a ∧ a < (widths.take j).sum + rest[i][j].width ∧
             (heights.take (r0 + 1 + i)).sum ≤ b ∧
             b < (heights.take (r0 + 1 + i)).sum + rest[i][j].height) := by
        intro i hi j hj hne
        have hh := hoth (i + 1) (by simpa using Nat.succ_lt_succ hi) j
          (by simpa using hj) (by omega)
        rw [show r0 + (i + 1) = r0 + 1 + i by omega] at hh
        simpa using hh
      have := ih (r0 + 1) (paste_cols widths ((heights.take r0).sum) 0 cv row) i0
        hi0' hj0' hcov' hoth'
      rw [this]
      simp only [List.getElem_cons_succ]
      rw [show r0 + 1 + i0 = r0 + (i0 + 1) by omega]

/-- The paste rectangles of distinct grid cells are disjoint: a point inside
cell `(r, c)`'s rectangle lies inside no other cell's rectangle. -/
theorem cover_unique (images : List (List (Image Color))) (a b r c : Nat)
    (hr : r < images.length) (hc : c < images[r].length)
    (ha1 : x_off images c ≤ a) (ha2 : a < x_off images c + images[r][c].width)
    (hb1 : y_off images r ≤ b) (hb2 : b < y_off images r + images[r][c].height) :
    ∀ i, (hi : i < images.length) → ∀ j, (hj : j < images[i].length) →
      ¬ (i = r ∧ j = c) →
      ¬ (x_off images j ≤ a ∧ a < x_off images j + images[i][j].width ∧
         y_off images i ≤ b ∧ b < y_off images i + images[i][j].height) := by
  intro i hi j hj hne hcov
  rcases hcov with ⟨ca1, ca2, cb1, cb2⟩
  have hwsl : (tile_widths images).length = num_cols images := tile_widths_length images
  have hjlen : j < (tile_widths images).length := by
    rw [hwsl]
    exact Nat.lt_of_lt_of_le hj (row_length_le_num_cols images i hi)
  have hclen : c < (tile_widths images).length := by
    rw [hwsl]
    exact Nat.lt_of_lt_of_le hc (row_length_le_num_cols images r hr)
  have hwj : images[i][j].width ≤ (tile_widths images)[j] := by
    rw [tile_widths_getElem images j hjlen]
    exact width_le_col_width images i j hi hj
  have hwc : images[r][c].width ≤ (tile_widths images)[c] := by
    rw [tile_widths_getElem images c hclen]
    exact width_le_col_width images r c hr hc
  have hilen : i < (row_heights images).length := by simpa [row_heights] using hi
  have hrlen : r < (row_heights images).length := by simpa [row_heights] using hr
  have hhi : images[i][j].height ≤ (row_heights images)[i] := by
    have he : (row_heights images)[i] = row_height images[i] := by
      simp [row_heights]
    rw [he]
    exact height_le_row_height images i j hi hj
  have hhr : images[r][c].height ≤ (row_heights images)[r] := by
    have he : (row_heights images)[r] = row_height images[r] := by
      simp [row_heights]
    rw [he]
    exact height_le_row_height images r c hr hc
  rcases Nat.lt_trichotomy j c with hjc | hesame | hcj
  · have hsep := interval_sep (tile_widths images) j c images[i][j].width a hjc
      hjlen hwj ca2
    unfold x_off at ha1
    omega
  · subst hesame
    have hir : i ≠ r := fun he2 => hne ⟨he2, rfl⟩
    rcases Nat.lt_or_ge i r with hir2 | hir3
    · have hsep := interval_sep (row_heights images) i r images[i][j].height b hir2
        hilen hhi cb2
      unfold y_off at hb1
      omega
    · have hri : r < i := by omega
      have hsep := interval_sep (row_heights images) r i images[r][j].height b hri
        hrlen hhr hb2
      unfold y_off at cb1
      omega
  · have hsep := interval_sep (tile_widths images) c j images[r][c].width a hcj
      hclen hwc ha2
    unfold x_off at ca1
    omega

/-- **C5.** Without a resolution argument, each image of the ragged grid appears
on the canvas at top-left offset `(x_off, y_off)` — the sums of the column
widths before its column and of the row heights before its row — at native
resolution (the canvas pixel at `(a, b)` inside its rectangle is the image's own
pixel at `(a - x_off, b - y_off)`, with no scaling and no centering); and every
canvas point covered by no image's rectangle carries the background color. -/
theorem image_tile_paste_placement (f : Image Color → Nat × Nat → Nat → Nat → Color)
    (images : List (List (Image Color))) (bg : Color) (r c a b a0 b0 : Nat)
    (hr : r < images.length) (hc : c < images[r].length)
    (ha1 : x_off images c ≤ a) (ha2 : a < x_off images c + images[r][c].width)
    (hb1 : y_off images r ≤ b) (hb2 : b < y_off images r + images[r][c].height)
    (hbg : ∀ i, (hi : i < images.length) → ∀ j, (hj : j < images[i].length) →
      ¬ (x_off images j ≤ a0 ∧ a0 < x_off images j + images[i][j].width ∧
         y_off images i ≤ b0 ∧ b0 < y_off images i + images[i][j].height)) :
    (image_tile f images none bg).pix a b =
      images[r][c].pix (a - x_off images c) (b - y_off images r) ∧
    (image_tile f images none bg).pix a0 b0 = bg := by
  have hbase : image_tile f images none bg =
      paste_rows (tile_widths images) (row_heights images) 0
        (Image.new (tile_widths images).sum (row_heights images).sum bg) images := rfl
  constructor
  · have hoth := cover_unique images a b r c hr hc ha1 ha2 hb1 hb2
    have h1 := paste_rows_pix_hit (tile_widths images) (row_heights images) 0 a b
      (Image.new (tile_widths images).sum (row_heights images).sum bg) images r c hr hc
      (by simp only [Nat.zero_add]; exact ⟨ha1, ha2, hb1, hb2⟩)
      (by intro i hi j hj hne; simp only [Nat.zero_add]; exact hoth i hi j hj hne)
    simp only [Nat.zero_add] at h1
    rw [hbase]
    exact h1
  · have h2 := paste_rows_pix_untouched (tile_widths images) (row_heights images) 0 a0 b0
      (Image.new (tile_widths images).sum (row_heights images).sum bg) images
      (by intro i hi j hj; simp only [Nat.zero_add]; exact hbg i hi j hj)
    rw [hbase, h2]
    rfl

theorem image_tile_paste_placement_witness :
    (image_tile (fun _ _ _ _ => (0 : Nat))
      [[Image.mk 2 3 (fun _ _ => 5)], [Image.mk 1 1 (fun _ _ => 9)]] none 0).pix 0 3 = 9 ∧
    (image_tile (fun _ _ _ _ => (0 : Nat))
      [[Image.mk 2 3 (fun _ _ => 5)], [Image.mk 1 1 (fun _ _ => 9)]] none 0).pix 1 3 = 0 :=
  image_tile_paste_placement (fun _ _ _ _ => 0)
    [[Image.mk 2 3 (fun _ _ => 5)], [Image.mk 1 1 (fun _ _ => 9)]] 0 1 0 0 3 1 3
    (by decide) (by decide) (by decide) (by decide) (by decide) (by decide) (by decide)

/-! ### Row-major distribution lemmas (`image_tile_auto`) -/

theorem fill_row_eq (paths : List (Image Color)) (idx k : Nat) :
    fill_row paths idx k = (paths.drop idx).take k := by
  induction k generalizing idx with
  | zero => simp [fill_row]
  | succ k ih =>
    simp only [fill_row]
    cases h : paths[idx]? with
    | some p =>
      have hlt : idx < paths.length := by
        by_contra hge
        rw [List.getElem?_eq_none (by omega)] at h
        cases h
      have hEq : paths[idx] = p := by
        rw [List.getElem?_eq_getElem hlt] at h
        exact Option.some_inj.mp h
      rw [ih (idx + 1), List.drop_eq_getElem_cons hlt, List.take_succ_cons, hEq]
    | none =>
      have hge : paths.length ≤ idx := by
        by_contra hlt
        rw [List.getElem?_eq_getElem (by omega)] at h
        cases h
      rw [ih (idx + 1), List.drop_of_length_le hge, List.drop_of_length_le (by omega)]
      simp

theorem fill_rows_length (paths : List (Image Color)) (cols idx k : Nat) :
    (fill_rows paths cols idx k).length = k := by
  induction k generalizing idx with
  | zero => rfl
  | succ k ih => simp [fill_rows, ih (idx + cols)]

theorem fill_rows_getElem? (paths : List (Image Color)) (cols idx k ri : Nat) :
    (fill_rows paths cols idx k)[ri]? =
      if ri < k then some (fill_row paths (idx + ri * cols) cols) else none := by
  induction k generalizing idx ri with
  | zero => simp [fill_rows]
  | succ k ih =>
    simp only [fill_rows]
    cases ri with
    | zero => simp
    | succ ri =>
      rw [List.getElem?_cons_succ, ih (idx + cols) ri]
      by_cases h : ri < k
      · rw [if_pos h, if_pos (by omega)]
        rw [show idx + cols + ri * cols = idx + (ri + 1) * cols by ring]
      · rw [if_neg h, if_neg (by omega)]

theorem fill_rows_flatten (paths : List (Image Color)) (cols idx k : Nat) :
    (fill_rows paths cols idx k).flatten = (paths.drop idx).take (k * cols) := by
  induction k generalizing idx with
  | zero => simp [fill_rows]
  | succ k ih =>
    simp only [fill_rows, List.flatten_cons, fill_row_eq, ih (idx + cols)]
    rw [show (k + 1) * cols = cols + k * cols by ring, List.take_add, List.drop_drop]

/-- **C6.** With no explicit layout, `image_tile_auto` delegates to `image_tile`
on the grid of shape `grid_layout_2d (paths.length)` filled row-major: the grid
has `rows` rows, and item `i` sits at row `i / cols`, column `i % cols`. -/
theorem image_tile_auto_row_major (f : Image Color → Nat × Nat → Nat → Nat → Color)
    (paths : List (Image Color)) (res : Option (Nat × Nat)) (bg : Color)
    (i : Nat) (hi : i < paths.length) :
    image_tile_auto f paths none res bg =
      image_tile f (fill_rows paths (grid_layout_2d paths.length).2 0
        (grid_layout_2d paths.length).1) res bg ∧
    (fill_rows paths (grid_layout_2d paths.length).2 0
      (grid_layout_2d paths.length).1).length = (grid_layout_2d paths.length).1 ∧
    ((fill_rows paths (grid_layout_2d paths.length).2 0
        (grid_layout_2d paths.length).1)[i / (grid_layout_2d paths.length).2]?).bind
      (fun row => row[i % (grid_layout_2d paths.length).2]?) = some paths[i] := by
  refine ⟨rfl, fill_rows_length paths _ 0 _, ?_⟩
  have hmul : (grid_layout_2d paths.length).1 * (grid_layout_2d paths.length).2 =
      paths.length := grid_layout_2d_mul paths.length
  have hcpos : 0 < (grid_layout_2d paths.length).2 := by
    rcases Nat.eq_zero_or_pos (grid_layout_2d paths.length).2 with h0 | h
    · rw [h0, Nat.mul_zero] at hmul
      omega
    · exact h
  have hdiv : i / (grid_layout_2d paths.length).2 < (grid_layout_2d paths.length).1 := by
    rw [Nat.div_lt_iff_lt_mul hcpos]
    have := Nat.mul_comm (grid_layout_2d paths.length).1 (grid_layout_2d paths.length).2
    omega
  rw [fill_rows_getElem?, if_pos hdiv, Option.some_bind, fill_row_eq, Nat.zero_add,
    List.getElem?_take, if_pos (Nat.mod_lt i hcpos), List.getElem?_drop,
    show i / (grid_layout_2d paths.length).2 * (grid_layout_2d paths.length).2 +
        i % (grid_layout_2d paths.length).2 = i by
      rw [Nat.mul_comm]
      exact Nat.div_add_mod i (grid_layout_2d paths.length).2]
  exact List.getElem?_eq_getElem hi

theorem image_tile_auto_row_major_witness :
    image_tile_auto (fun _ _ _ _ => (0 : Nat))
        [Image.mk 1 1 (fun _ _ => 1), Image.mk 1 1 (fun _ _ => 2),
          Image.mk 1 1 (fun _ _ => 3)] none none 0 =
      image_tile (fun _ _ _ _ => 0)
        (fill_rows [Image.mk 1 1 (fun _ _ => 1), Image.mk 1 1 (fun _ _ => 2),
            Image.mk 1 1 (fun _ _ => 3)]
          (grid_layout_2d 3).2 0 (grid_layout_2d 3).1) none 0 ∧
    (fill_rows [Image.mk 1 1 (fun _ _ => (1 : Nat)), Image.mk 1 1 (fun _ _ => 2),
        Image.mk 1 1 (fun _ _ => 3)]
      (grid_layout_2d 3).2 0 (grid_layout_2d 3).1).length = (grid_layout_2d 3).1 ∧
    ((fill_rows [Image.mk 1 1 (fun _ _ => (1 : Nat)), Image.mk 1 1 (fun _ _ => 2),
          Image.mk 1 1 (fun _ _ => 3)]
        (grid_layout_2d 3).2 0 (grid_layout_2d 3).1)[2 / (grid_layout_2d 3).2]?).bind
      (fun row => row[2 % (grid_layout_2d 3).2]?) =
      some (Image.mk 1 1 (fun _ _ => 3)) :=
  image_tile_auto_row_major (fun _ _ _ _ => 0)
    [Image.mk 1 1 (fun _ _ => 1), Image.mk 1 1 (fun _ _ => 2),
      Image.mk 1 1 (fun _ _ => 3)] none 0 2 (by decide)

/-- **C7 counterexample.** With three items and explicit layout `(1, 1)` (so
`rows * cols = 1 < 3`), `image_tile_auto` raises nothing: it silently builds the
one-cell grid holding only the first item and tiles it.  (The source contains
no validation and no error type; the docstring states the caller obligation
`rows * cols >= len(paths)` but the code never checks it.) -/
theorem image_tile_auto_no_layout_check :
    fill_rows [Image.mk 1 1 (fun _ _ => (1 : Nat)), Image.mk 1 1 (fun _ _ => 2),
        Image.mk 1 1 (fun _ _ => 3)] 1 0 1 =
      [[Image.mk 1 1 (fun _ _ => 1)]] ∧
    image_tile_auto (fun _ _ _ _ => (0 : Nat))
        [Image.mk 1 1 (fun _ _ => 1), Image.mk 1 1 (fun _ _ => 2),
          Image.mk 1 1 (fun _ _ => 3)] (some (1, 1)) none 0 =
      image_tile (fun _ _ _ _ => 0) [[Image.mk 1 1 (fun _ _ => 1)]] none 0 :=
  ⟨rfl, rfl⟩

/-- **C7 (amended).** When an explicit layout `(r, c)` has `r * c <
paths.length`, `image_tile_auto` does not fail: it tiles exactly the first
`r * c` items and silently drops the rest. -/
theorem image_tile_auto_truncates (f : Image Color → Nat × Nat → Nat → Nat → Color)
    (paths : List (Image Color)) (r c : Nat) (res : Option (Nat × Nat)) (bg : Color)
    (h : r * c < paths.length) :
    image_tile_auto f paths (some (r, c)) res bg =
      image_tile f (fill_rows paths c 0 r) res bg ∧
    (fill_rows paths c 0 r).flatten = paths.take (r * c) ∧
    (paths.take (r * c)).length < paths.length := by
  refine ⟨rfl, ?_, ?_⟩
  · rw [fill_rows_flatten]
    simp
  · rw [List.length_take]
    omega

theorem image_tile_auto_truncates_witness :
    1 * 1 < ([Image.mk 1 1 (fun _ _ => (1 : Nat)), Image.mk 1 1 (fun _ _ => 2),
        Image.mk 1 1 (fun _ _ => 3)]).length ∧
    (image_tile_auto (fun _ _ _ _ => (0 : Nat))
        [Image.mk 1 1 (fun _ _ => 1), Image.mk 1 1 (fun _ _ => 2),
          Image.mk 1 1 (fun _ _ => 3)] (some (1, 1)) none 0 =
      image_tile (fun _ _ _ _ => 0)
        (fill_rows [Image.mk 1 1 (fun _ _ => 1), Image.mk 1 1 (fun _ _ => 2),
            Image.mk 1 1 (fun _ _ => 3)] 1 0 1) none 0 ∧
    (fill_rows [Image.mk 1 1 (fun _ _ => (1 : Nat)), Image.mk 1 1 (fun _ _ => 2),
        Image.mk 1 1 (fun _ _ => 3)] 1 0 1).flatten =
      ([Image.mk 1 1 (fun _ _ => (1 : Nat)), Image.mk 1 1 (fun _ _ => 2),
        Image.mk 1 1 (fun _ _ => 3)]).take (1 * 1) ∧
    (([Image.mk 1 1 (fun _ _ => (1 : Nat)), Image.mk 1 1 (fun _ _ => 2),
        Image.mk 1 1 (fun _ _ => 3)]).take (1 * 1)).length <
      ([Image.mk 1 1 (fun _ _ => (1 : Nat)), Image.mk 1 1 (fun _ _ => 2),
        Image.mk 1 1 (fun _ _ => 3)]).length) :=
  ⟨by decide,
    image_tile_auto_truncates (fun _ _ _ _ => 0)
      [Image.mk 1 1 (fun _ _ => 1), Image.mk 1 1 (fun _ _ => 2),
        Image.mk 1 1 (fun _ _ => 3)] 1 1 none 0 (by decide)⟩

/-- **C8 counterexample.** On an empty grid (zero rows) `image_tile` raises no
error at all: it composes a `0 × 0` background canvas (the source has no
emptiness check; `PIL.Image.new` accepts size `(0, 0)`). -/
theorem image_tile_empty_grid_no_error :
    image_tile (fun _ _ _ _ => (0 : Nat)) ([] : List (List (Image Nat))) none 0 =
      Image.new 0 0 0 :=
  rfl

/-- **C8 (amended).** `image_tile` performs no validation of an empty grid: with
zero rows all column widths and row heights are empty, and the result is the
`0 × 0` canvas filled with the background color. -/
theorem image_tile_empty_grid (f : Image Color → Nat × Nat → Nat → Nat → Color)
    (bg : Color) :
    (image_tile f ([] : List (List (Image Color))) none bg).width = 0 ∧
    (image_tile f ([] : List (List (Image Color))) none bg).height = 0 ∧
    image_tile f ([] : List (List (Image Color))) none bg = Image.new 0 0 bg :=
  ⟨rfl, rfl, rfl⟩

/-- **C9 counterexample.** The Python `image_tile` takes an `out_path` and saves
the composed canvas there itself (returning `None`); it does not hand an
in-memory canvas back and leave persistence to the caller.  Concretely, calling
it changes the filesystem at `out_path`: afterwards the file at `"out"` holds
the `2`-pixel-wide composition, not the `1`-pixel-wide image previously there. -/
theorem image_tile_writes_out_path :
    (image_tile_file (fun _ _ _ _ => (0 : Nat)) [["a"]] "out" none 0
        (fun p => if p = "a" then Image.mk 2 3 (fun _ _ => 7)
          else Image.mk 1 1 (fun _ _ => 7)) "out").width ≠
      ((fun p => if p = "a" then Image.mk 2 3 (fun _ _ => (7 : Nat))
        else Image.mk 1 1 (fun _ _ => 7)) "out").width := by
  decide

/-- **C9 (amended).** Input sources are filesystem paths (opened via the
filesystem map); `image_tile` itself persists the composed canvas by saving it
at `out_path` — after the call the filesystem holds exactly the composition at
`out_path` and is untouched elsewhere; nothing is returned to the caller. -/
theorem image_tile_file_saves (f : Image Color → Nat × Nat → Nat → Nat → Color)
    (fs : String → Image Color) (in_paths : List (List String)) (out : String)
    (res : Option (Nat × Nat)) (bg : Color) (p : String) (hp : p ≠ out) :
    image_tile_file f in_paths out res bg fs out =
      image_tile f (in_paths.map (fun row => row.map fs)) res bg ∧
    image_tile_file f in_paths out res bg fs p = fs p := by
  constructor
  · show (if out = out then
        image_tile f (in_paths.map (fun row => row.map fs)) res bg
      else fs out) = _
    rw [if_pos rfl]
  · show (if p = out then
        image_tile f (in_paths.map (fun row => row.map fs)) res bg
      else fs p) = fs p
    rw [if_neg hp]

theorem image_tile_file_saves_witness :
    image_tile_file (fun _ _ _ _ => (0 : Nat)) [["a"]] "out" none 0
        (fun _ => Image.mk 1 1 (fun _ _ => 4)) "out" =
      image_tile (fun _ _ _ _ => 0)
        ([["a"]].map (fun row => row.map (fun _ => Image.mk 1 1 (fun _ _ => (4 : Nat)))))
        none 0 ∧
    image_tile_file (fun _ _ _ _ => (0 : Nat)) [["a"]] "out" none 0
        (fun _ => Image.mk 1 1 (fun _ _ => 4)) "b" =
      (fun _ => Image.mk 1 1 (fun _ _ => (4 : Nat))) "b" :=
  image_tile_file_saves (fun _ _ _ _ => 0)
    (fun _ => Image.mk 1 1 (fun _ _ => 4)) [["a"]] "out" none 0 "b" (by decide)

end Danpy
